import Mathlib

/-!
# Verification of the round-rendering script (`render.py`)

A shallow embedding of the data model and operations of the repository's
rendering script, together with theorems settling the specification's claims.

Conventions of the embedding:
* Python `int`s are `ℤ` (or `ℕ` for counters that are provably non-negative).
* Python floating point enters only through the two trig constants
  `cos(30·π/180)` and `sin(30·π/180)`; these are embedded as the exact
  rational values of the IEEE-754 binary64 doubles the script computes
  (`0x1.bb67ae8584cabp-1` and `0x1.fffffffffffffp-2`), and the remaining
  arithmetic of `convert_coords` is carried out exactly over `ℚ` (for the
  inputs appearing in the claims this agrees with the double-precision
  evaluation, checked against the repository's own unit test values).
* Fallible code returns `Except String`; the string is the Python
  exception message.
* Python's class-level attributes (`Round._Turns`, `Round.__turn_counter`)
  are modelled by an explicit shared state, see `Sys` below.
-/

deriving instance DecidableEq for Except

namespace Render

/-- `clamp` from `render.py`: `max(min(maxn, n), minn)`. -/
def clamp (n minn maxn : ℤ) : ℤ := max (min maxn n) minn

/-- Numerator of the exact value of the binary64 double `cos(30*pi/180)`
computed by the script: `cos(30·π/180) = cos30N / 2^53`
(the double is `0x1.bb67ae8584cabp-1`). -/
def cos30N : ℤ := 7800463371553963

/-- Numerator of the exact value of the binary64 double `sin(30*pi/180)`
computed by the script: `sin(30·π/180) = sin30N / 2^54`
(the double is `0x1.fffffffffffffp-2`). -/
def sin30N : ℤ := 9007199254740991

/-- `convert_coords` from `render.py`:
`x_prime = 960 + cos(30·π/180)·x − cos(30·π/180)·y`,
`y_prime = sin(30·π/180)·x + sin(30·π/180)·y`, both truncated to `int`
(Python's `int()` truncates toward zero, `Int.tdiv`).  The two real
expressions are evaluated exactly as fractions over the common
denominators `2^53` and `2^54` of the embedded trig constants. -/
def convert_coords (x y : ℤ) : ℤ × ℤ :=
  ((960 * 9007199254740992 + cos30N * x - cos30N * y).tdiv 9007199254740992,
   (sin30N * x + sin30N * y).tdiv 18014398509481984)

/-- A token tuple `(x, y, strength, faction_char)` as parsed from a turn
record line. -/
structure Tok where
  x : ℤ
  y : ℤ
  s : ℤ
  tag : Char
  deriving DecidableEq

/-! ## The `Round` class and its shared class-level state

In `render.py`, `Round._Turns = {}` and `Round.__turn_counter = 0` are
*class* attributes.  Item assignment `self._Turns[number] = ...` mutates the
class-level dictionary in place (it never creates an instance attribute), so
every `Round` instance reads and writes one shared dictionary; the embedding
makes that dictionary an explicit state `Sys` threaded beside the instances.
The augmented assignment `self.__turn_counter += 1` on the (immutable) int
*does* rebind the counter on the instance, so counters are per-instance
after the first `add_turn`; an instance's counter is `none` until then
(falling back to the class value `0`). -/

/-- A `Round.Turn` object after `add_turn` has set its `list` and `number`
instance attributes. -/
structure TurnObj where
  list : List Tok
  number : ℕ
  deriving DecidableEq

/-- Python-dict insertion on an association list: overwrite the value at an
existing key in place, else append the new key at the end. -/
def dictInsert (k : ℕ) (v : TurnObj) : List (ℕ × TurnObj) → List (ℕ × TurnObj)
  | [] => [(k, v)]
  | (k0, v0) :: rest =>
      if k0 = k then (k, v) :: rest else (k0, v0) :: dictInsert k v rest

/-- Python-dict lookup on an association list. -/
def dictGet (k : ℕ) : List (ℕ × TurnObj) → Option TurnObj
  | [] => none
  | (k0, v0) :: rest => if k0 = k then some v0 else dictGet k rest

/-- The per-instance state of a `Round` object: only `__turn_counter` ever
becomes an instance attribute (`none` = not yet rebound, class value `0`). -/
structure RoundInst where
  counter : Option ℕ
  deriving DecidableEq

/-- The shared class-level state of `Round`: the single `_Turns` dictionary
that all instances alias. -/
structure Sys where
  sharedTurns : List (ℕ × TurnObj)
  deriving DecidableEq

/-- The class-level state of `Round` in a fresh interpreter process. -/
def initSys : Sys := ⟨[]⟩

/-- `Round()` — a new instance carries no instance attributes of its own. -/
def newRound : RoundInst := ⟨none⟩

/-- `Round.add_turn(self, in_list, t_number=None)` from `render.py`.
Returns the updated shared class state and the updated instance. -/
def add_turn (sys : Sys) (inst : RoundInst) (in_list : List Tok)
    (t_number : Option ℕ) : Sys × RoundInst :=
  match t_number with
  | some n => (⟨dictInsert n ⟨in_list, n⟩ sys.sharedTurns⟩, inst)
  | none =>
      let n := inst.counter.getD 0 + 1
      (⟨dictInsert n ⟨in_list, n⟩ sys.sharedTurns⟩, { inst with counter := some n })

/-- `Round.get_turn(self, number)` from `render.py`.  `self` is consulted
only for `_Turns`, which always resolves to the shared class dictionary, so
the instance argument contributes nothing to the result. -/
def get_turn (sys : Sys) (_self : RoundInst) (number : ℕ) : Except String TurnObj :=
  match dictGet number sys.sharedTurns with
  | some t => .ok t
  | none => .error "That Turn does not exist within this Round"

/-- `Round.get_number_turns(self)` from `render.py`: `len(self._Turns)`,
again resolving to the shared class dictionary. -/
def get_number_turns (sys : Sys) (_self : RoundInst) : ℕ :=
  sys.sharedTurns.length

/-! ## The parsing loop of `main` (bounds check and `add_turn`) -/

/-- The bounds test of `main`:
`tup[0] not in range(0, 100) or tup[1] not in range(0, 100)`. -/
def offBoard (t : Tok) : Prop :=
  ¬ (0 ≤ t.x ∧ t.x < 100) ∨ ¬ (0 ≤ t.y ∧ t.y < 100)

instance : DecidablePred offBoard := fun t =>
  inferInstanceAs
    (Decidable (¬ (0 ≤ t.x ∧ t.x < 100) ∨ ¬ (0 ≤ t.y ∧ t.y < 100)))

/-- The message of the `RuntimeError` raised by `main` on an out-of-bounds
token. -/
def boundsMsg (gid rid : ℕ) : String :=
  "Token outside board! To many stray Tokens. Please check the log file " ++
    toString gid ++ ".gamelog, round " ++ toString rid ++ ". Terminating"

/-- The `for turn in content:` loop of `main`: each turn is scanned for an
out-of-bounds token (raising `RuntimeError` at the first offender) and then
appended to the round via `add_turn` with an automatic turn number. -/
def parseLoop (gid rid : ℕ) :
    List (List Tok) → Sys → RoundInst → Except String (Sys × RoundInst)
  | [], sys, inst => .ok (sys, inst)
  | turn :: rest, sys, inst =>
      if turn.any (fun t => decide (offBoard t)) then
        .error (boundsMsg gid rid)
      else
        let (sys1, inst1) := add_turn sys inst turn none
        parseLoop gid rid rest sys1 inst1

/-- Parsing a round's turn lists in a fresh process: `data = Round()`
followed by the `for turn in content:` loop. -/
def parseContentTurns (gid rid : ℕ) (content : List (List Tok)) :
    Except String (Sys × RoundInst) :=
  parseLoop gid rid content initSys newRound

/-! ## The per-turn token loop of `main`

The loop body over `turn.list` assigns `rgb`, `hex_result` and
`outline_cl` together whenever the token's tag is `'B'` or `'R'`; for any
other tag it leaves them as they were (they are plain function locals of
`main`, so the last assignment persists across tokens *and* across turns,
and reading them before any assignment raises `NameError`).  `binding`
below carries that triple of locals (`hex_result` is the hexadecimal
rendering of the same `rgb` triple, so the pair `(rgb, outline_cl)`
determines all three).  The draw entry keeps the token's `bottom` face
(computed with `convert_coords`) together with the colour locals; the
`top` and `fill` faces are further total functions of the token's
position alone and are elided from the entry. -/

/-- The last values of the locals `(rgb, outline_cl)` of `main`. -/
abbrev Binding := (ℤ × ℤ × ℤ) × String

/-- The colour-relevant content of one entry of `all_draw`. -/
structure DrawEntry where
  bottom : List (ℤ × ℤ)
  color : ℤ × ℤ × ℤ
  outline : String
  deriving DecidableEq

/-- The state of one iteration of the turn loop of `main`: per-turn
accumulators `bstr`, `rstr`, `hist` and `all_draw` (reset at the top of the
turn loop), plus the persistent locals `binding`. -/
structure TurnState where
  bstr : ℤ
  rstr : ℤ
  histB : List ℤ
  histR : List ℤ
  binding : Option Binding
  allDraw : List DrawEntry
  deriving DecidableEq

/-- The fresh per-turn state (`rstr = 0`, `bstr = 0`, `hist = [[], []]`,
`all_draw = []`) with a given carried-over `binding`. -/
def initTurnState (b : Option Binding) : TurnState :=
  ⟨0, 0, [], [], b, []⟩

/-- One iteration of `for tup in turn.list:` from `main`: update the colour
locals and stats according to the tag, then append the draw entry (reading
the colour locals, `NameError` if never assigned). -/
def stepTok (st : TurnState) (t : Tok) : Except String TurnState :=
  let st1 :=
    if t.tag = 'B' then
      { st with
        bstr := st.bstr + t.s
        histB := st.histB ++ [t.s]
        binding := some ((clamp (220 - 11 * t.s) 0 255,
                          clamp (220 - 11 * t.s) 0 255, 255), "blue") }
    else if t.tag = 'R' then
      { st with
        rstr := st.rstr + t.s
        histR := st.histR ++ [t.s]
        binding := some ((255, clamp (220 - 11 * t.s) 0 255,
                          clamp (220 - 11 * t.s) 0 255), "red") }
    else st
  match st1.binding with
  | none => .error "NameError: name hex_result is not defined"
  | some b =>
      .ok { st1 with
        allDraw := st1.allDraw ++
          [⟨[convert_coords (t.x * 10) (t.y * 10 + 10),
             convert_coords (t.x * 10 + 10) (t.y * 10 + 10),
             convert_coords (t.x * 10 + 10) (t.y * 10)], b.1, b.2⟩] }

/-- The whole `for tup in turn.list:` loop. -/
def tokenLoop : List Tok → TurnState → Except String TurnState
  | [], st => .ok st
  | t :: ts, st =>
      match stepTok st t with
      | .error e => .error e
      | .ok st1 => tokenLoop ts st1

/-! ## The turn (frame) loop of `main` -/

/-- The `for turn_number in range(1, data.get_number_turns()):` loop of
`main`, reduced to its observable data: for each visited turn number the
turn is fetched with `get_turn`, its tokens are processed with the token
loop, the per-turn totals are appended to `rstr_all` / `bstr_all`, and the
frame `f"{turn_number}.png"` is saved (recorded here by its turn number).
The colour locals (`binding`) persist across turns. -/
def statsLoop (sys : Sys) (inst : RoundInst) :
    List ℕ → Option Binding → List ℤ → List ℤ → List ℕ →
    Except String (List ℤ × List ℤ × List ℕ)
  | [], _, rAll, bAll, frames => .ok (rAll, bAll, frames)
  | n :: rest, b, rAll, bAll, frames =>
      match get_turn sys inst n with
      | .error e => .error e
      | .ok turnObj =>
          match tokenLoop turnObj.list (initTurnState b) with
          | .error e => .error e
          | .ok st =>
              statsLoop sys inst rest st.binding
                (rAll ++ [st.rstr]) (bAll ++ [st.bstr]) (frames ++ [n])

/-- The whole rendering loop: visit `range(1, get_number_turns())`, i.e. the
turn numbers `1, …, N−1` where `N` is the number of stored turns. -/
def renderLoop (sys : Sys) (inst : RoundInst) :
    Except String (List ℤ × List ℤ × List ℕ) :=
  statsLoop sys inst (List.range' 1 (get_number_turns sys inst - 1))
    none [] [] []

/-- The data pipeline of `main` on an already line-split round section:
parse (bounds check + `add_turn`), then render.  Returns
`(rstr_all, bstr_all, frames)`. -/
def runPipeline (gid rid : ℕ) (content : List (List Tok)) :
    Except String (List ℤ × List ℤ × List ℕ) :=
  match parseContentTurns gid rid content with
  | .error e => .error e
  | .ok (sys, inst) => renderLoop sys inst

/-! ## Extraction of a round's section from the raw log text

`main` (lines 212–223) slices the log with `str.partition` on the markers
`f"game = {round_id}"` and `f"game = {round_id + 1}"`, splits on newlines,
and then pops at most one leading empty line and at most one trailing
empty or `"end"` line.  Text is embedded as `List Char`. -/

/-- Python's `str.partition(sep)` restricted to the two components the
script uses: `(before, after)` around the *first* occurrence of `sep`; when
`sep` does not occur the result is `(whole, [])`, matching Python's
`(s, "", "")`. -/
def pypartition (sep : List Char) : List Char → List Char × List Char
  | [] => ([], [])
  | c :: rest =>
      if sep.isPrefixOf (c :: rest) then ([], (c :: rest).drop sep.length)
      else
        let (pre, post) := pypartition sep rest
        (c :: pre, post)

/-- Python's `str.split('\n')`: `""` splits to `[""]`, every newline starts
a fresh (possibly empty) piece. -/
def pysplitNL : List Char → List (List Char)
  | [] => [[]]
  | c :: rest =>
      if c = '\n' then [] :: pysplitNL rest
      else
        match pysplitNL rest with
        | [] => [[c]]
        | l :: ls => (c :: l) :: ls

/-- The trimming of `main` (lines 217–223): pop the first line if it is
empty; then pop the last line if it is empty, else pop it if it equals
`"end"`.  `content[0]` / `content[-1]` on an empty list raises
`IndexError`. -/
def cleanLines : List (List Char) → Except String (List (List Char))
  | [] => .error "IndexError: list index out of range"
  | content =>
      let c1 := if content.head? = some [] then content.tail else content
      match c1.getLast? with
      | none => .error "IndexError: list index out of range"
      | some l =>
          .ok (if l = [] ∨ l = "end".toList then c1.dropLast else c1)

/-- The marker `f"game = {round_id}"`. -/
def marker (rid : ℕ) : List Char := "game = ".toList ++ (toString rid).toList

/-- The whole section-extraction of `main` (lines 212–223): slice between
the markers for `rid` and `rid + 1`, split into lines, trim. -/
def pyExtract (log : List Char) (rid : ℕ) : Except String (List (List Char)) :=
  let after := (pypartition (marker rid) log).2
  let before := (pypartition (marker (rid + 1)) after).1
  cleanLines (pysplitNL before)

/-! ## The video assembler

`convert_frames_to_video` (lines 145–165) collects every `*.png` of the
input directory, orders the file names with `natsorted`, and appends each
image to the `cv2.VideoWriter` in that order, dropping none.  The frames
`main` saves are named `f"{turn_number}.png"`, and on such names `natsorted`
compares the embedded numbers numerically; the directory's png set is
therefore embedded as the list of those turn numbers (in the unspecified
order the file system returns), and `natsorted` as a sort of the numbers. -/

/-- The output of `convert_frames_to_video`: the video file path, its frame
rate, and the ordered frames written to it (by turn number). -/
structure VideoOut where
  path : String
  fps : ℚ
  frames : List ℕ
  deriving DecidableEq

/-- `convert_frames_to_video(pathIn, pathOut, fps)`: write the natsorted
png files of the directory, in order, to the video at `pathOut`. -/
def convert_frames_to_video (files : List ℕ) (pathOut : String) (fps : ℚ) :
    VideoOut :=
  ⟨pathOut, fps, List.insertionSort (· ≤ ·) files⟩

/-- The call of line 417:
`convert_frames_to_video(os.getcwd(), f"{game_id}_{round_id}.mp4", 24 * (speed / 100))`. -/
def mainVideo (gid rid : ℕ) (speed : ℚ) (files : List ℕ) : VideoOut :=
  convert_frames_to_video files
    (toString gid ++ "_" ++ toString rid ++ ".mp4") (24 * (speed / 100))

/-! ## Helper lemmas -/

/-- A successful dictionary lookup exhibits its key/value pair. -/
theorem dictGet_some_mem :
    ∀ (d : List (ℕ × TurnObj)) (n : ℕ) (t : TurnObj),
      dictGet n d = some t → (n, t) ∈ d := by
  intro d
  induction d with
  | nil => intro n t h; simp [dictGet] at h
  | cons p rest ih =>
      intro n t h
      obtain ⟨k0, v0⟩ := p
      by_cases hk : k0 = n
      · subst hk
        simp [dictGet] at h
        subst h
        exact List.mem_cons_self _ _
      · simp [dictGet, hk] at h
        exact List.mem_cons_of_mem _ (ih n t h)

/-- A key absent from the dictionary makes the lookup fail. -/
theorem dictGet_eq_none (d : List (ℕ × TurnObj)) (n : ℕ)
    (h : ∀ p ∈ d, p.1 ≠ n) : dictGet n d = none := by
  induction d with
  | nil => rfl
  | cons p rest ih =>
      obtain ⟨k0, v0⟩ := p
      have hk : k0 ≠ n := h (k0, v0) (List.mem_cons_self _ _)
      simp [dictGet, hk]
      exact ih fun q hq => h q (List.mem_cons_of_mem _ hq)

/-- Processing one token keeps the per-turn totals non-negative. -/
theorem stepTok_nonneg (st : TurnState) (t : Tok) (st1 : TurnState)
    (hs : 0 ≤ t.s) (hb : 0 ≤ st.bstr) (hr : 0 ≤ st.rstr)
    (h : stepTok st t = .ok st1) : 0 ≤ st1.bstr ∧ 0 ≤ st1.rstr := by
  by_cases hB : t.tag = 'B'
  · simp [stepTok, hB] at h
    subst h
    constructor
    · simpa using add_nonneg hb hs
    · simpa using hr
  · by_cases hR : t.tag = 'R'
    · simp [stepTok, hB, hR] at h
      subst h
      constructor
      · simpa using hb
      · simpa using add_nonneg hr hs
    · simp [stepTok, hB, hR] at h
      cases hbind : st.binding with
      | none => rw [hbind] at h; simp at h
      | some b =>
          rw [hbind] at h
          simp at h
          subst h
          exact ⟨by simpa using hb, by simpa using hr⟩

/-- The whole token loop keeps the per-turn totals non-negative. -/
theorem tokenLoop_nonneg :
    ∀ (ts : List Tok) (st st1 : TurnState),
      (∀ t ∈ ts, 0 ≤ t.s) → 0 ≤ st.bstr → 0 ≤ st.rstr →
      tokenLoop ts st = .ok st1 → 0 ≤ st1.bstr ∧ 0 ≤ st1.rstr := by
  intro ts
  induction ts with
  | nil =>
      intro st st1 _ hb hr h
      simp [tokenLoop] at h
      subst h
      exact ⟨hb, hr⟩
  | cons t rest ih =>
      intro st st1 hts hb hr h
      simp only [tokenLoop] at h
      cases hstep : stepTok st t with
      | error e => rw [hstep] at h; simp at h
      | ok stMid =>
          rw [hstep] at h
          obtain ⟨hb1, hr1⟩ :=
            stepTok_nonneg st t stMid (hts t (List.mem_cons_self _ _)) hb hr hstep
          exact ih stMid st1 (fun u hu => hts u (List.mem_cons_of_mem _ hu)) hb1 hr1 h

/-- The turn loop only ever appends per-turn totals that are non-negative,
provided every stored token strength is non-negative. -/
theorem statsLoop_nonneg (sys : Sys) (inst : RoundInst)
    (hsys : ∀ p ∈ sys.sharedTurns, ∀ t ∈ p.2.list, 0 ≤ t.s) :
    ∀ (ns : List ℕ) (b : Option Binding) (rAll bAll : List ℤ) (fr : List ℕ),
      (∀ x ∈ rAll, 0 ≤ x) → (∀ x ∈ bAll, 0 ≤ x) →
      ∀ r bb f, statsLoop sys inst ns b rAll bAll fr = .ok (r, bb, f) →
        (∀ x ∈ r, 0 ≤ x) ∧ (∀ x ∈ bb, 0 ≤ x) := by
  intro ns
  induction ns with
  | nil =>
      intro b rAll bAll fr hr hb r bb f h
      simp [statsLoop] at h
      obtain ⟨h1, h2, h3⟩ := h
      subst h1; subst h2
      exact ⟨hr, hb⟩
  | cons n rest ih =>
      intro b rAll bAll fr hr hb r bb f h
      cases hget : get_turn sys inst n with
      | error e => simp [statsLoop, hget] at h
      | ok turnObj =>
          cases hloop : tokenLoop turnObj.list (initTurnState b) with
          | error e => simp [statsLoop, hget, hloop] at h
          | ok st =>
              replace h :
                  statsLoop sys inst rest st.binding (rAll ++ [st.rstr])
                    (bAll ++ [st.bstr]) (fr ++ [n]) = .ok (r, bb, f) := by
                simpa [statsLoop, hget, hloop] using h
              have hmem : (n, turnObj) ∈ sys.sharedTurns := by
                unfold get_turn at hget
                cases hd : dictGet n sys.sharedTurns with
                | none => rw [hd] at hget; simp at hget
                | some t0 =>
                    rw [hd] at hget
                    simp at hget
                    subst hget
                    exact dictGet_some_mem _ _ _ hd
              have hts : ∀ t ∈ turnObj.list, 0 ≤ t.s :=
                hsys (n, turnObj) hmem
              obtain ⟨hb1, hr1⟩ :=
                tokenLoop_nonneg turnObj.list (initTurnState b) st hts
                  le_rfl le_rfl hloop
              refine ih st.binding (rAll ++ [st.rstr]) (bAll ++ [st.bstr])
                (fr ++ [n]) ?_ ?_ r bb f h
              · intro x hx
                rcases List.mem_append.mp hx with hx1 | hx2
                · exact hr x hx1
                · rw [List.mem_singleton.mp hx2]; exact hr1
              · intro x hx
                rcases List.mem_append.mp hx with hx1 | hx2
                · exact hb x hx1
                · rw [List.mem_singleton.mp hx2]; exact hb1

/-- The turn loop appends exactly one entry per visited turn number to each
of the two totals sequences and to the saved-frame list. -/
theorem statsLoop_shape (sys : Sys) (inst : RoundInst) :
    ∀ (ns : List ℕ) (b : Option Binding) (rAll bAll : List ℤ) (fr : List ℕ)
      (r bb : List ℤ) (f : List ℕ),
      statsLoop sys inst ns b rAll bAll fr = .ok (r, bb, f) →
      r.length = rAll.length + ns.length ∧
      bb.length = bAll.length + ns.length ∧ f = fr ++ ns := by
  intro ns
  induction ns with
  | nil =>
      intro b rAll bAll fr r bb f h
      simp [statsLoop] at h
      obtain ⟨h1, h2, h3⟩ := h
      subst h1; subst h2; subst h3
      simp
  | cons n rest ih =>
      intro b rAll bAll fr r bb f h
      cases hget : get_turn sys inst n with
      | error e => simp [statsLoop, hget] at h
      | ok turnObj =>
          cases hloop : tokenLoop turnObj.list (initTurnState b) with
          | error e => simp [statsLoop, hget, hloop] at h
          | ok st =>
              replace h :
                  statsLoop sys inst rest st.binding (rAll ++ [st.rstr])
                    (bAll ++ [st.bstr]) (fr ++ [n]) = .ok (r, bb, f) := by
                simpa [statsLoop, hget, hloop] using h
              obtain ⟨h1, h2, h3⟩ := ih _ _ _ _ _ _ _ h
              refine ⟨?_, ?_, ?_⟩
              · rw [h1]; simp; omega
              · rw [h2]; simp; omega
              · rw [h3]; simp

/-- The parse loop aborts with the bounds `RuntimeError` whenever some turn
of the remaining content contains an off-board token. -/
theorem parseLoop_error (gid rid : ℕ) :
    ∀ (content : List (List Tok)) (sys : Sys) (inst : RoundInst)
      (turn : List Tok), turn ∈ content →
      ∀ t ∈ turn, offBoard t →
      parseLoop gid rid content sys inst = .error (boundsMsg gid rid) := by
  intro content
  induction content with
  | nil => intro sys inst turn h; exact absurd h (List.not_mem_nil _)
  | cons turn0 rest ih =>
      intro sys inst turn hturn t ht hoob
      by_cases h0 : turn0.any fun u => decide (offBoard u)
      · simp [parseLoop, h0]
      · have hmem : turn ∈ rest := by
          rcases List.mem_cons.mp hturn with rfl | hm
          · exact absurd (List.any_eq_true.mpr ⟨t, ht, decide_eq_true hoob⟩) h0
          · exact hm
        simp only [parseLoop, h0, if_false, Bool.false_eq_true]
        exact ih _ _ turn hmem t ht hoob

/-- From any starting state, a turn whose tokens all carry tag `'R'` or
`'B'` is processed without error, appending exactly one draw entry per
token. -/
theorem tokenLoop_total_of_tags :
    ∀ (ts : List Tok) (st : TurnState),
      (∀ t ∈ ts, t.tag = 'R' ∨ t.tag = 'B') →
      ∃ st1, tokenLoop ts st = .ok st1 ∧
        st1.allDraw.length = st.allDraw.length + ts.length := by
  intro ts
  induction ts with
  | nil => intro st _; exact ⟨st, rfl, by simp [tokenLoop]⟩
  | cons t rest ih =>
      intro st hts
      have hstep : ∃ stMid, stepTok st t = .ok stMid ∧
          stMid.allDraw.length = st.allDraw.length + 1 := by
        rcases hts t (List.mem_cons_self _ _) with hR | hB
        · simp only [stepTok, hR]
          refine ⟨_, rfl, ?_⟩
          simp
        · simp only [stepTok, hB]
          refine ⟨_, rfl, ?_⟩
          simp
      obtain ⟨stMid, hstepEq, hlen⟩ := hstep
      obtain ⟨st1, hloop, hlen1⟩ :=
        ih stMid (fun u hu => hts u (List.mem_cons_of_mem _ hu))
      refine ⟨st1, ?_, ?_⟩
      · simp only [tokenLoop, hstepEq]; exact hloop
      · rw [hlen1, hlen]; simp [List.length_cons]; omega

/-! ## Claim theorems -/

/-- C1: the rendering loop `for turn_number in range(1, data.get_number_turns())`
omits the final turn.  On the specification's own two-turn round log
(turn 1 = `[(0,0,5,B)]`, turn 2 = `[(0,0,5,B),(1,1,10,R)]`) the pipeline
stores two turns but saves exactly ONE frame, `1.png` — not the claimed two
frames — so the claim "one frame per turn, N frames in total, including the
final turn" fails on the code (an off-by-one: `range(1, N)` visits
`1..N-1`). -/
theorem C1_two_turn_log_renders_one_frame :
    runPipeline 7 3 [[⟨0, 0, 5, 'B'⟩], [⟨0, 0, 5, 'B'⟩, ⟨1, 1, 10, 'R'⟩]]
        = .ok ([0], [5], [1]) ∧
    ([1] : List ℕ).length = 1 := by decide

/-- C2 counterexample: the parser has no lenient mode.  On a log whose
first turn holds the single out-of-bounds token `(150, 5, 1, B)` followed
by one perfectly valid turn — one offending turn, well below the claimed
threshold of three — parsing aborts at once with the bounds `RuntimeError`
instead of skipping the offending turn with a warning, refuting the claimed
configurable lenient-with-threshold policy. -/
theorem C2_counterexample_no_lenient_mode :
    parseContentTurns 7 3 [[⟨150, 5, 1, 'B'⟩], [⟨0, 0, 1, 'B'⟩]]
      = .error (boundsMsg 7 3) := by decide

/-- C2 amended: out-of-bounds handling is not configurable — only the
strict policy exists.  Whenever any token of any turn lies outside
`[0,100) × [0,100)`, parsing aborts immediately with the fixed
`RuntimeError` message (there is no lenient mode and no threshold). -/
theorem C2_strict_policy_only (gid rid : ℕ) (content : List (List Tok))
    (turn : List Tok) (hturn : turn ∈ content) (t : Tok) (ht : t ∈ turn)
    (hoob : offBoard t) :
    parseContentTurns gid rid content = .error (boundsMsg gid rid) :=
  parseLoop_error gid rid content initSys newRound turn hturn t ht hoob

/-- C2 witness: a token at `(150, 5)` aborts the run. -/
theorem C2_strict_policy_only_witness :
    parseContentTurns 9 2 [[⟨150, 5, 1, 'B'⟩]] = .error (boundsMsg 9 2) :=
  C2_strict_policy_only 9 2 [[⟨150, 5, 1, 'B'⟩]] [⟨150, 5, 1, 'B'⟩]
    (by decide) ⟨150, 5, 1, 'B'⟩ (by decide) (by decide)

/-- C3 counterexample: the per-faction sequences are per-turn sums, reset
every turn (`rstr = 0`, `bstr = 0` at the top of the loop), not cumulative.
With all strengths non-negative (turn 1 = one blue token of strength 5,
turn 2 = empty board, turn 3 arbitrary), the blue sequence comes out
`[5, 0]`, which decreases — refuting "non-decreasing turn over turn". -/
theorem C3_counterexample_decreasing_totals :
    runPipeline 7 3 [[⟨0, 0, 5, 'B'⟩], [], [⟨0, 0, 1, 'B'⟩]]
        = .ok ([0, 0], [5, 0], [1, 2]) ∧
    ¬ List.Chain' (· ≤ ·) [(5 : ℤ), 0] :=
  ⟨by decide, by norm_num [List.chain'_cons]⟩

/-- C3 amended: each faction's sequence receives one entry per processed
turn, equal to that turn's per-faction strength sum (the accumulators are
reset each turn, so the sequence is not cumulative and need not be
non-decreasing); when every stored token strength is non-negative, every
entry of both sequences is non-negative. -/
theorem C3_per_turn_totals_nonneg (sys : Sys) (inst : RoundInst)
    (hsys : ∀ p ∈ sys.sharedTurns, ∀ t ∈ p.2.list, 0 ≤ t.s)
    (r b : List ℤ) (f : List ℕ)
    (h : renderLoop sys inst = .ok (r, b, f)) :
    ((∀ x ∈ r, 0 ≤ x) ∧ (∀ x ∈ b, 0 ≤ x)) ∧
    r.length = f.length ∧ b.length = f.length ∧
    f = List.range' 1 (get_number_turns sys inst - 1) := by
  have hshape := statsLoop_shape sys inst _ none [] [] [] r b f h
  refine ⟨statsLoop_nonneg sys inst hsys _ none [] [] []
    (by intro x hx; exact absurd hx (List.not_mem_nil _))
    (by intro x hx; exact absurd hx (List.not_mem_nil _)) r b f h, ?_, ?_, ?_⟩
  · rw [hshape.1, hshape.2.2]; simp
  · rw [hshape.2.1, hshape.2.2]; simp
  · rw [hshape.2.2]; simp

/-- C3 witness: a concrete two-turn store with non-negative strengths. -/
theorem C3_per_turn_totals_nonneg_witness :
    ((∀ x ∈ [(0 : ℤ)], 0 ≤ x) ∧ (∀ x ∈ [(5 : ℤ)], 0 ≤ x)) ∧
    ([(0 : ℤ)].length = [1].length ∧ [(5 : ℤ)].length = [1].length) ∧
    [1] = List.range' 1
      (get_number_turns
        ⟨[(1, ⟨[⟨0, 0, 5, 'B'⟩], 1⟩),
          (2, ⟨[⟨0, 0, 5, 'B'⟩, ⟨1, 1, 10, 'R'⟩], 2⟩)]⟩ ⟨some 2⟩ - 1) := by
  have h := C3_per_turn_totals_nonneg
    ⟨[(1, ⟨[⟨0, 0, 5, 'B'⟩], 1⟩), (2, ⟨[⟨0, 0, 5, 'B'⟩, ⟨1, 1, 10, 'R'⟩], 2⟩)]⟩
    ⟨some 2⟩ (by decide) [0] [5] [1] (by decide)
  exact ⟨h.1, ⟨h.2.1, h.2.2.1⟩, h.2.2.2⟩

/-- C4: `Round._Turns` is a class attribute, so all `Round` instances share
one backing dictionary.  With two freshly constructed instances `r1` and
`r2` (both `newRound`), a single `r1.add_turn([(0,0,5,B)])` makes
`r2.get_number_turns()` report `1` (the claim demands `0`) and makes the
turn added to `r1` retrievable through `r2.get_turn(1)` — the claimed
disjointness is violated; the specification itself flags this shared
class-level container as the latent bug, so the code, not the claim, is
wrong. -/
theorem C4_round_instances_share_state :
    get_number_turns (add_turn initSys newRound [⟨0, 0, 5, 'B'⟩] none).1 newRound
        = 1 ∧
    get_turn (add_turn initSys newRound [⟨0, 0, 5, 'B'⟩] none).1 newRound 1
        = .ok ⟨[⟨0, 0, 5, 'B'⟩], 1⟩ := by decide

/-- C5 counterexample: the trimming removes at most ONE leading line.  On a
log whose round-3 section starts with two blank lines before the single
record, extraction returns the record still preceded by two empty lines —
not the claimed "all leading and trailing empty lines removed". -/
theorem C5_counterexample_blank_lines_survive :
    pyExtract ("game = 3\n\n\n[(1,1,1,B)]\ngame = 4\nx").toList 3
        = .ok [[], [], "[(1,1,1,B)]".toList] ∧
    ([[], [], "[(1,1,1,B)]".toList] : List (List Char))
        ≠ ["[(1,1,1,B)]".toList] := by decide

/-- C5 amended: extraction slices the text strictly between the marker of
round `N` and that of round `N + 1` (or the end of the log) and splits it
one record per line, but removes only at most one leading empty line and at
most one trailing empty-or-`"end"` line; for a well-formed section — a
single newline after the marker, the records, and a single trailing empty
or terminator line — the result is exactly the record lines. -/
theorem C5_section_extraction (records : List (List Char)) :
    cleanLines ([] :: records ++ [[]]) = .ok records ∧
    cleanLines ([] :: records ++ ["end".toList]) = .ok records ∧
    pyExtract ("game = 3\n[(1,1,1,B)]\ngame = 4\nx").toList 3
        = .ok ["[(1,1,1,B)]".toList] := by
  refine ⟨?_, ?_, by decide⟩
  · show cleanLines ([] :: (records ++ [[]])) = .ok records
    simp [cleanLines, List.getLast?_concat, List.dropLast_concat]
  · show cleanLines ([] :: (records ++ ["end".toList])) = .ok records
    simp [cleanLines, List.getLast?_concat, List.dropLast_concat]

/-- C6: the coordinate projector at the four reference points of the
specification and of `test_render.py` (trig constants embedded as the exact
binary64 doubles the script computes). -/
theorem C6_convert_coords_values :
    convert_coords 0 0 = (960, 0) ∧
    convert_coords 0 1000 = (93, 499) ∧
    convert_coords 1000 1000 = (960, 999) ∧
    convert_coords 1000 0 = (1826, 499) := by decide

/-- C7: processing one token sets the colour locals to
`(intensity, intensity, 255)` for Blue and `(255, intensity, intensity)`
for Red with `intensity = clamp(220 − 11·strength, 0, 255)`, and the draw
entry appended for the token carries exactly that colour; in particular the
intensity is `220` at strength `0` and `0` at any strength ≥ 20. -/
theorem C7_token_color_formula (st : TurnState) (x y s : ℤ) :
    (∃ st1, stepTok st ⟨x, y, s, 'B'⟩ = .ok st1 ∧
      st1.binding = some ((clamp (220 - 11 * s) 0 255,
                           clamp (220 - 11 * s) 0 255, 255), "blue") ∧
      st1.allDraw.getLast?.map (fun e => (e.color, e.outline)) =
        some ((clamp (220 - 11 * s) 0 255,
               clamp (220 - 11 * s) 0 255, 255), "blue")) ∧
    (∃ st1, stepTok st ⟨x, y, s, 'R'⟩ = .ok st1 ∧
      st1.binding = some ((255, clamp (220 - 11 * s) 0 255,
                           clamp (220 - 11 * s) 0 255), "red") ∧
      st1.allDraw.getLast?.map (fun e => (e.color, e.outline)) =
        some ((255, clamp (220 - 11 * s) 0 255,
               clamp (220 - 11 * s) 0 255), "red")) ∧
    (s = 0 → clamp (220 - 11 * s) 0 255 = 220) ∧
    (20 ≤ s → clamp (220 - 11 * s) 0 255 = 0) := by
  refine ⟨?_, ?_, ?_, ?_⟩
  · simp only [stepTok]
    refine ⟨_, rfl, ?_, ?_⟩ <;> simp
  · simp only [stepTok]
    refine ⟨_, rfl, ?_, ?_⟩ <;> simp
  · rintro rfl; decide
  · intro hs
    unfold clamp
    rw [min_eq_right (by omega), max_eq_right (by omega)]

/-- C7 witness: intensity 220 at strength 0, intensity 0 at strength 25. -/
theorem C7_token_color_formula_witness :
    clamp (220 - 11 * 0) 0 255 = 220 ∧ clamp (220 - 11 * 25) 0 255 = 0 :=
  ⟨(C7_token_color_formula (initTurnState none) 0 0 0).2.2.1 rfl,
   (C7_token_color_formula (initTurnState none) 0 0 25).2.2.2 (by decide)⟩

/-- C8: given the frames of a render invocation (the files `k.png` for the
visited turn numbers, in whatever order the directory lists them), the
assembler writes one video named `{game_id}_{round_id}.mp4` at
`24 × (speed/100)` frames per second containing exactly those frames in
ascending turn-number order — no re-ordering beyond the natsort, no
dropping. -/
theorem C8_video_assembly (gid rid : ℕ) (speed : ℚ) (n : ℕ)
    (files : List ℕ) (hfiles : List.Perm files (List.range' 1 n)) :
    (mainVideo gid rid speed files).frames = List.range' 1 n ∧
    (mainVideo gid rid speed files).fps = 24 * (speed / 100) ∧
    (mainVideo gid rid speed files).path
        = toString gid ++ "_" ++ toString rid ++ ".mp4" := by
  refine ⟨?_, rfl, rfl⟩
  have hsorted : List.Sorted (· ≤ ·) (List.insertionSort (· ≤ ·) files) :=
    List.sorted_insertionSort _ _
  have hperm : List.Perm (List.insertionSort (· ≤ ·) files) (List.range' 1 n) :=
    (List.perm_insertionSort _ _).trans hfiles
  have hr : List.Sorted (· ≤ ·) (List.range' 1 n) :=
    List.pairwise_le_range' 1 n
  exact List.eq_of_perm_of_sorted hperm hsorted hr

/-- C8 witness: three frames listed out of order. -/
theorem C8_video_assembly_witness :
    (mainVideo 7 3 100 [2, 1, 3]).frames = List.range' 1 3 ∧
    (mainVideo 7 3 100 [2, 1, 3]).fps = 24 * ((100 : ℚ) / 100) ∧
    (mainVideo 7 3 100 [2, 1, 3]).path
        = toString 7 ++ "_" ++ toString 3 ++ ".mp4" :=
  C8_video_assembly 7 3 100 3 [2, 1, 3] (by decide)

/-- C9: `get_turn` returns the stored turn for every stored number and
raises `KeyError("That Turn does not exist within this Round")` for every
absent number; the embedding of `get_turn` is a pure function of the state,
so the round is left unchanged by construction. -/
theorem C9_get_turn_spec (sys : Sys) (inst : RoundInst) (n : ℕ) :
    ((∀ p ∈ sys.sharedTurns, p.1 ≠ n) →
      get_turn sys inst n = .error "That Turn does not exist within this Round") ∧
    (∀ t, dictGet n sys.sharedTurns = some t → get_turn sys inst n = .ok t) := by
  constructor
  · intro habs
    unfold get_turn
    rw [dictGet_eq_none sys.sharedTurns n habs]
  · intro t ht
    unfold get_turn
    rw [ht]

/-- C9 witness: a store holding only turn 1. -/
theorem C9_get_turn_spec_witness :
    get_turn ⟨[(1, ⟨[], 1⟩)]⟩ ⟨some 1⟩ 2
        = .error "That Turn does not exist within this Round" ∧
    get_turn ⟨[(1, ⟨[], 1⟩)]⟩ ⟨some 1⟩ 1 = .ok ⟨[], 1⟩ :=
  ⟨(C9_get_turn_spec ⟨[(1, ⟨[], 1⟩)]⟩ ⟨some 1⟩ 2).1 (by decide),
   (C9_get_turn_spec ⟨[(1, ⟨[], 1⟩)]⟩ ⟨some 1⟩ 1).2 ⟨[], 1⟩ (by decide)⟩

/-- C10 counterexample: the colour locals persist across turns, so a turn
whose first token carries the odd tag `X` does NOT fail when an earlier
turn already bound them: the three-turn run below succeeds, and processing
the odd-tagged token in isolation with the stale blue binding draws it with
that stale colour instead of raising `NameError`. -/
theorem C10_counterexample_stale_binding :
    (runPipeline 7 3 [[⟨0, 0, 5, 'B'⟩], [⟨1, 1, 7, 'X'⟩], []]).isOk = true ∧
    (tokenLoop [⟨1, 1, 7, 'X'⟩]
        (initTurnState (some ((165, 165, 255), "blue")))).map
          (fun st => st.allDraw.map fun e => (e.color, e.outline))
        = .ok [((165, 165, 255), "blue")] := by decide

/-- C10 amended: from any carried-over binding, a turn whose tokens all
carry tag `R` or `B` is processed totally, appending exactly one coloured
draw entry per token; a turn whose first token carries any other tag fails
with `NameError` only when no previous token of the run has bound the
colour locals (binding still `none`). -/
theorem C10_color_totality (ts : List Tok) :
    ((∀ t ∈ ts, t.tag = 'R' ∨ t.tag = 'B') → ∀ b : Option Binding,
      ∃ st1, tokenLoop ts (initTurnState b) = .ok st1 ∧
        st1.allDraw.length = ts.length) ∧
    (∀ t ts0, ts = t :: ts0 → t.tag ≠ 'R' → t.tag ≠ 'B' →
      tokenLoop ts (initTurnState none)
        = .error "NameError: name hex_result is not defined") := by
  constructor
  · intro hts b
    obtain ⟨st1, h1, h2⟩ := tokenLoop_total_of_tags ts (initTurnState b) hts
    exact ⟨st1, h1, by simpa [initTurnState] using h2⟩
  · rintro t ts0 rfl hR hB
    simp only [tokenLoop, stepTok, hR, hB, if_neg, initTurnState]
    have hB' : (t.tag = 'B') = False := by simp [hB]
    have hR' : (t.tag = 'R') = False := by simp [hR]
    simp [hB', hR']

/-- C10 witness: an all-tagged turn succeeds with one entry per token from
an empty binding; a first odd-tagged token with no prior binding fails. -/
theorem C10_color_totality_witness :
    (tokenLoop [⟨0, 0, 5, 'B'⟩, ⟨1, 1, 2, 'R'⟩] (initTurnState none)).isOk
        = true ∧
    tokenLoop [⟨0, 0, 5, 'X'⟩] (initTurnState none)
        = .error "NameError: name hex_result is not defined" := by
  constructor
  · obtain ⟨st1, h1, -⟩ :=
      (C10_color_totality [⟨0, 0, 5, 'B'⟩, ⟨1, 1, 2, 'R'⟩]).1 (by decide) none
    rw [h1]; rfl
  · exact (C10_color_totality [⟨0, 0, 5, 'X'⟩]).2 ⟨0, 0, 5, 'X'⟩ [] rfl
      (by decide) (by decide)

end Render

